import Mathlib

/-!
Verification development for the review-app lifecycle action (src/index.js).

The JavaScript program is embedded shallowly:

* Remote objects (review apps, builds, application details) become structures.
* The remote platform is an oracle (`Env`): the response to the n-th
  review-app-list query is `reviewAppsAt n`, the response to the n-th
  build-list query is `buildsAt n`, and the one-shot create / archive / delete
  requests have fixed results.  Each re-query advances a counter, so the
  remote state may differ between polls, exactly as in the program.
* JavaScript exceptions become `Except JsError`; a property access on
  `null`/`undefined` becomes a `JsError.typeError` value.
* The two unbounded `do … while` polling loops take a fuel argument;
  exhausting the fuel yields a `diverged` outcome (the loop is still running).
* Every remote call the program issues is recorded in an ordered `List Call`
  trace, so temporal claims are statements about that trace.
-/

/-- The `app` field of a Heroku review-app object: the reference to the
underlying application (`review_app.app.id` is the application id). -/
structure AppRef where
  id : String
  deriving DecidableEq

/-- A Heroku review-app object as consumed by the program: its own `id`,
the `pr_number` it is bound to, its `status` string, the optional reference
to the underlying application, and the optional `error_status` field. -/
structure ReviewApp where
  id : String
  pr_number : Nat
  status : String
  app : Option AppRef := none
  error_status : Option String := none
  deriving DecidableEq

/-- The `source_blob` of a build or of a create request. -/
structure SourceBlob where
  url : String
  version : String
  deriving DecidableEq

/-- A Heroku build object: its `source_blob` (whose `version` is the commit
sha it was built from) and its `status` string. -/
structure Build where
  source_blob : SourceBlob
  status : String
  deriving DecidableEq

/-- The application-details object returned by `GET /apps/:id`. -/
structure AppDetails where
  id : String
  web_url : String
  deriving DecidableEq

/-- An error raised by the HTTP clients; `statusCode` is the optional
`err.statusCode` field the program inspects (409 means duplicate). -/
structure HttpError where
  statusCode : Option Nat
  message : String
  deriving DecidableEq

/-- A JavaScript exception: `jsError` is a `new Error(message)` thrown by the
program itself, `typeError` is the runtime fault of reading a property of
`null`/`undefined`, and `httpError` wraps a client error that propagates. -/
inductive JsError where
  | jsError (message : String)
  | typeError (message : String)
  | httpError (e : HttpError)
  deriving DecidableEq

/-- The `err.message` used by the top-level `core.setFailed(err.message)`. -/
def JsError.message : JsError → String
  | JsError.jsError m => m
  | JsError.typeError m => m
  | JsError.httpError e => e.message

/-- The body of `POST /review-apps` built by `createReviewApp`
(`environment.GIT_REPO_URL` is flattened into `git_repo_url`). -/
structure CreateBody where
  branch : String
  pipeline : String
  source_blob : SourceBlob
  fork_repo_id : Option Nat
  pr_number : Nat
  git_repo_url : String
  deriving DecidableEq

/-- One remote call issued by the program, in the order the program awaits
them.  `destroyApp` is `DELETE /apps/:id`; `deleteReviewApp` is
`DELETE /review-apps/:id`; `sleep` is `waitSeconds(5)`. -/
inductive Call where
  | findReviewApp
  | destroyApp (id : String)
  | deleteReviewApp (id : String)
  | getArchive
  | createApp (body : CreateBody)
  | getBuilds (appId : String)
  | getAppDetails (id : String)
  | sleep
  deriving DecidableEq

/-- The remote world: responses to the queries made by the program.  `reviewAppsAt n`
is the review-app list of the pipeline returned by the n-th
`GET /pipelines/:id/review-apps`; `buildsAt n` is the list returned by the
n-th `GET /apps/:id/builds`. -/
structure Env where
  reviewAppsAt : Nat → List ReviewApp
  buildsAt : Nat → List Build
  archive : Except HttpError String
  createResult : Except HttpError ReviewApp
  deleteReviewAppResult : Except HttpError Unit
  appDetails : String → AppDetails

/-- The data the run destructures from `github.context` and its inputs.
`forkRepo` is `payload.pull_request.head.repo.fork`.  `baseRepoFork` models
`payload.repository.fork` (the fork flag of the base repository): it is present in
the triggering payload but never read by the program. -/
structure Inputs where
  eventName : String
  action : String
  branch : String
  version : String
  repoId : Nat
  forkRepo : Bool
  baseRepoFork : Bool := false
  repoHtmlUrl : String
  prNumber : Nat
  pipelineId : String
  deriving DecidableEq

/-- `findReviewApp`: linear scan of the review-app list of the pipeline for the
entry whose `pr_number` matches; `none` models the `null` return. -/
def findReviewApp (pr : Nat) (apps : List ReviewApp) : Option ReviewApp :=
  apps.find? (fun a => a.pr_number == pr)

/-- JavaScript `v || d` on an optional string (`undefined`, `null` and the
empty string are falsy). -/
def jsOrStr (v : Option String) (d : String) : String :=
  match v with
  | some s => if s.isEmpty then d else s
  | none => d

/-- `checkBuildStatusForReviewApp(app)` with the fetched build list made
explicit.  Mirrors the source line by line: the review-app status gates
return `false`; a missing `app.app` throws `Unexpected app status`; the
build matching `version` is looked up with `find`; the `if (!build)` branch
only logs, so `build.status` is then read off `undefined` (a `TypeError`);
the switch maps `succeeded`/`pending`/other to done / not finished / a thrown
`Unexpected build status` error that interpolates the review-app `status`
and `error_status`. -/
def checkBuildStatusForReviewApp (version : String) (app? : Option ReviewApp)
    (builds : List Build) : Except JsError Bool :=
  match app? with
  | none =>
    Except.error (JsError.typeError ("Cannot read properties of null (reading status)"))
  | some app =>
    if app.status == ("pending") || app.status == ("creating") then Except.ok false
    else if app.status == ("deleting") then Except.ok false
    else
      match app.app with
      | none =>
        Except.error (JsError.jsError (("Unexpected app status: \"") ++ app.status ++ ("\"")))
      | some _ =>
        match builds.find? (fun b => version == b.source_blob.version) with
        | none =>
          Except.error
            (JsError.typeError ("Cannot read properties of undefined (reading status)"))
        | some build =>
          if build.status == ("succeeded") then Except.ok true
          else if build.status == ("pending") then Except.ok false
          else
            Except.error (JsError.jsError ((("Unexpected build status: \"") ++ app.status
              ++ ("\": ")) ++ jsOrStr app.error_status ("no error provided")))

/-- The application id whose builds `checkBuildStatusForReviewApp` would
fetch, if its control flow reaches the fetch (same gates as the check). -/
def fetchesBuilds (app? : Option ReviewApp) : Option String :=
  match app? with
  | none => none
  | some app =>
    if app.status == ("pending") || app.status == ("creating") then none
    else if app.status == ("deleting") then none
    else
      match app.app with
      | none => none
      | some r => some r.id

/-- The result of one locate-and-check round of the build watcher. -/
structure WatchStepOut where
  calls : List Call
  t : Nat
  u : Nat
  located : Option ReviewApp
  res : Except JsError Bool

/-- One round of the build watcher: re-locate the review app (consuming
locate index `t`), then run `checkBuildStatusForReviewApp` on it, fetching
the build list (consuming build-list index `u`) exactly when the control
flow of the check reaches the fetch. -/
def watchStep (env : Env) (pr : Nat) (version : String) (t u : Nat) : WatchStepOut :=
  let app? := findReviewApp pr (env.reviewAppsAt t)
  match fetchesBuilds app? with
  | some appId =>
    { calls := [Call.findReviewApp, Call.getBuilds appId], t := t + 1, u := u + 1,
      located := app?, res := checkBuildStatusForReviewApp version app? (env.buildsAt u) }
  | none =>
    { calls := [Call.findReviewApp], t := t + 1, u := u,
      located := app?, res := checkBuildStatusForReviewApp version app? (env.buildsAt u) }

/-- Outcome of the `do while not isFinished` loop of the build watcher. -/
inductive WatchOut where
  | diverged
  | threw (e : JsError)
  | finished (app : ReviewApp)
  deriving DecidableEq

/-- The `do while not isFinished` loop of the watcher: each iteration re-locates
and re-checks, sleeps 5 seconds, and repeats until the check resolves
finished; a thrown check error propagates immediately.  `fuel` bounds the
iterations we unfold; running out is `diverged`. -/
def buildWaitLoop (env : Env) (pr : Nat) (version : String) :
    Nat → Nat → Nat → List Call × WatchOut
  | 0, _, _ => ([], WatchOut.diverged)
  | fuel + 1, t, u =>
    let s := watchStep env pr version t u
    match s.res with
    | Except.error e => (s.calls, WatchOut.threw e)
    | Except.ok true =>
      match s.located with
      | some app => (s.calls ++ [Call.sleep], WatchOut.finished app)
      | none =>
        (s.calls ++ [Call.sleep],
          WatchOut.threw (JsError.typeError ("Cannot read properties of null (reading app)")))
    | Except.ok false =>
      let r := buildWaitLoop env pr version fuel s.t s.u
      (s.calls ++ [Call.sleep] ++ r.1, r.2)

/-- Outcome of `waitReviewAppUpdated`. -/
inductive WaitOut where
  | diverged
  | threw (e : JsError)
  | done (details : AppDetails)
  deriving DecidableEq

/-- `waitReviewAppUpdated`: one initial locate-and-check round (its boolean
result is only logged), then the `do … while` loop, then
`getAppDetails(reviewApp.app.id)` on the last located review app. -/
def waitReviewAppUpdated (env : Env) (pr : Nat) (version : String)
    (fuel t u : Nat) : List Call × WaitOut :=
  let s0 := watchStep env pr version t u
  match s0.res with
  | Except.error e => (s0.calls, WaitOut.threw e)
  | Except.ok _ =>
    match buildWaitLoop env pr version fuel s0.t s0.u with
    | (tr1, WatchOut.diverged) => (s0.calls ++ tr1, WaitOut.diverged)
    | (tr1, WatchOut.threw e) => (s0.calls ++ tr1, WaitOut.threw e)
    | (tr1, WatchOut.finished app) =>
      match app.app with
      | some r =>
        (s0.calls ++ tr1 ++ [Call.getAppDetails r.id],
          WaitOut.done (env.appDetails r.id))
      | none =>
        (s0.calls ++ tr1,
          WaitOut.threw (JsError.typeError ("Cannot read properties of undefined (reading id)")))

/-- The destroy-wait loop of the reconcile path:
each iteration re-locates, updates `destroyStatus` only when an app was
found, sleeps 5 seconds, and repeats while `destroyStatus` equals `deleting`.
Returns the emitted calls, the next locate index, and `some finalStatus` on
exit or `none` when the fuel runs out with the loop still spinning. -/
def destroyWaitLoop (env : Env) (pr : Nat) :
    Nat → Nat → String → List Call × Nat × Option String
  | 0, t, _ => ([], t, none)
  | fuel + 1, t, destroyStatus =>
    let ds :=
      match findReviewApp pr (env.reviewAppsAt t) with
      | some a => a.status
      | none => destroyStatus
    if ds == ("deleting") then
      let r := destroyWaitLoop env pr fuel (t + 1) ds
      (Call.findReviewApp :: Call.sleep :: r.1, r.2.1, r.2.2)
    else
      ([Call.findReviewApp, Call.sleep], t + 1, some ds)

/-- `forkRepoId = forkRepo ? repoId : undefined` — computed from the head
fork flag of the head repository. -/
def forkRepoIdOf (inp : Inputs) : Option Nat :=
  if inp.forkRepo then some inp.repoId else none

/-- The create-request body assembled by `createReviewApp`. -/
def mkCreateBody (inp : Inputs) (archiveUrl : String) : CreateBody :=
  { branch := inp.branch, pipeline := inp.pipelineId,
    source_blob := { url := archiveUrl, version := inp.version },
    fork_repo_id := forkRepoIdOf inp, pr_number := inp.prNumber,
    git_repo_url := inp.repoHtmlUrl }

/-- The `catch (err)` clause of `createReviewApp`: a non-409 `statusCode`
is rethrown unchanged; on 409 the locator is re-run, a found app becomes the
result, and a still-absent app throws the inconsistency error. -/
def conflictRecover (env : Env) (pr : Nat) (t : Nat) (err : HttpError) :
    List Call × Nat × Except JsError ReviewApp :=
  if err.statusCode ≠ some 409 then ([], t, Except.error (JsError.httpError err))
  else
    match findReviewApp pr (env.reviewAppsAt t) with
    | some app => ([Call.findReviewApp], t + 1, Except.ok app)
    | none =>
      ([Call.findReviewApp], t + 1,
        Except.error (JsError.jsError ("Previously got status 409 but no app found")))

/-- `createReviewApp`: inside the `try`, fetch the source archive, then
`POST /review-apps` with the assembled body; any error thrown inside the
`try` (archive fetch or create) is handled by `conflictRecover`. -/
def createReviewApp (env : Env) (inp : Inputs) (t : Nat) :
    List Call × Nat × Except JsError ReviewApp :=
  match env.archive with
  | Except.error err =>
    let r := conflictRecover env inp.prNumber t err
    (Call.getArchive :: r.1, r.2.1, r.2.2)
  | Except.ok archiveUrl =>
    match env.createResult with
    | Except.ok app =>
      ([Call.getArchive, Call.createApp (mkCreateBody inp archiveUrl)], t, Except.ok app)
    | Except.error err =>
      let r := conflictRecover env inp.prNumber t err
      (Call.getArchive :: Call.createApp (mkCreateBody inp archiveUrl) :: r.1, r.2.1, r.2.2)

/-- How the `run` body finishes: a clean return, a return after
`core.setFailed` (the closed-without-app path), an exception that propagates
to the top-level `catch`, or a polling loop still spinning at fuel 0. -/
inductive BodyOut where
  | ok
  | setFailed (msg : String)
  | threw (e : JsError)
  | diverged
  deriving DecidableEq

/-- The tail of the reconcile path once the destroy-wait (if any) has
completed: `await createReviewApp()` (result discarded) followed by
`waitReviewAppUpdated()` and the output of the app details.  `pre` is the
trace accumulated so far, `t` the next locate index. -/
def reconcileAfterDestroy (env : Env) (inp : Inputs) (fuel : Nat)
    (pre : List Call) (t : Nat) : List Call × BodyOut :=
  let c := createReviewApp env inp t
  match c.2.2 with
  | Except.error e => (pre ++ c.1, BodyOut.threw e)
  | Except.ok _ =>
    match waitReviewAppUpdated env inp.prNumber inp.version fuel c.2.1 0 with
    | (wtr, WaitOut.diverged) => (pre ++ c.1 ++ wtr, BodyOut.diverged)
    | (wtr, WaitOut.threw e) => (pre ++ c.1 ++ wtr, BodyOut.threw e)
    | (wtr, WaitOut.done _) => (pre ++ c.1 ++ wtr, BodyOut.ok)

/-- The body of `run()` (everything inside the top-level `try`): validate the
event name, skip forked-head PRs, handle `closed` (delete the located review
app, or `setFailed` when none exists), and otherwise reconcile: locate, issue
`DELETE /apps/<reviewApp.id>` for a found app (its error is swallowed by
`.catch`), run the destroy-wait loop from status `deleting`, then create
and watch. -/
def runBody (inp : Inputs) (env : Env) (fuel : Nat) : List Call × BodyOut :=
  if inp.eventName ≠ ("pull_request") then
    ([], BodyOut.threw (JsError.jsError (("Unexpected github event trigger: ") ++ inp.eventName)))
  else if inp.forkRepo then ([], BodyOut.ok)
  else if inp.action = ("closed") then
    match findReviewApp inp.prNumber (env.reviewAppsAt 0) with
    | some app =>
      match env.deleteReviewAppResult with
      | Except.ok _ => ([Call.findReviewApp, Call.deleteReviewApp app.id], BodyOut.ok)
      | Except.error err =>
        ([Call.findReviewApp, Call.deleteReviewApp app.id],
          BodyOut.threw (JsError.httpError err))
    | none =>
      ([Call.findReviewApp],
        BodyOut.setFailed (("Action \"closed\", yet no existing review app for PR #")
          ++ toString inp.prNumber))
  else
    match findReviewApp inp.prNumber (env.reviewAppsAt 0) with
    | some app =>
      let d := destroyWaitLoop env inp.prNumber fuel 1 ("deleting")
      match d.2.2 with
      | none => (Call.findReviewApp :: Call.destroyApp app.id :: d.1, BodyOut.diverged)
      | some _ =>
        reconcileAfterDestroy env inp fuel
          (Call.findReviewApp :: Call.destroyApp app.id :: d.1) d.2.1
    | none => reconcileAfterDestroy env inp fuel ([Call.findReviewApp]) 1

/-- The observable outcome of one run. -/
inductive RunResult where
  | success
  | failed (msg : String)
  | diverged
  deriving DecidableEq

/-- `run()` with its top-level `catch`: a thrown error is converted into a
failed run carrying `err.message`; nothing propagates uncaught. -/
def run (inp : Inputs) (env : Env) (fuel : Nat) : RunResult × List Call :=
  let r := runBody inp env fuel
  (match r.2 with
   | BodyOut.ok => RunResult.success
   | BodyOut.setFailed m => RunResult.failed m
   | BodyOut.threw e => RunResult.failed e.message
   | BodyOut.diverged => RunResult.diverged, r.1)

/-- Number of review-app-list queries (`findReviewApp` calls) in a trace. -/
def countFind (tr : List Call) : Nat :=
  tr.countP (fun c => match c with | Call.findReviewApp => true | _ => false)

/-! Concrete fixtures used by the closed theorems and the witnesses. -/

/-- A review app for PR 7 observed mid-destruction. -/
def raC1 : ReviewApp :=
  { id := ("ra-1"), pr_number := 7, status := ("deleting"), app := some { id := ("app-1") } }

/-- World for C1: the app is listed (still `deleting`) at the first query and
has disappeared from the pipeline list at every later query. -/
def envC1 : Env :=
  { reviewAppsAt := fun t => if t = 0 then [raC1] else [],
    buildsAt := fun _ => [], archive := Except.ok ("tar"),
    createResult := Except.error { statusCode := some 409, message := ("Conflict") },
    deleteReviewAppResult := Except.ok (),
    appDetails := fun i => { id := i, web_url := ("w") } }

def inpC1 : Inputs :=
  { eventName := ("pull_request"), action := ("synchronize"), branch := ("b"),
    version := ("v"), repoId := 1, forkRepo := false, baseRepoFork := false,
    repoHtmlUrl := ("u"), prNumber := 7, pipelineId := ("p") }

/-- A review app whose underlying application exists (status past creating). -/
def appC2 : ReviewApp :=
  { id := ("ra-2"), pr_number := 2, status := ("created"), app := some { id := ("app-2") } }

/-- A build list whose only build is for a different commit version. -/
def buildsC2 : List Build :=
  [{ source_blob := { url := ("u"), version := ("v0") }, status := ("succeeded") }]

def raC3 : ReviewApp :=
  { id := ("ra-3"), pr_number := 3, status := ("created"), app := some { id := ("app-3") } }

def errC3 : HttpError := { statusCode := some 409, message := ("Conflict") }

def envC3 : Env :=
  { reviewAppsAt := fun _ => [raC3], buildsAt := fun _ => [],
    archive := Except.ok ("tar"), createResult := Except.error errC3,
    deleteReviewAppResult := Except.ok (),
    appDetails := fun i => { id := i, web_url := ("w") } }

def inpC3 : Inputs :=
  { eventName := ("pull_request"), action := ("synchronize"), branch := ("b"),
    version := ("v"), repoId := 3, forkRepo := false, baseRepoFork := false,
    repoHtmlUrl := ("u"), prNumber := 3, pipelineId := ("p") }

def inpC4 : Inputs :=
  { eventName := ("pull_request"), action := ("opened"), branch := ("b"),
    version := ("v"), repoId := 4, forkRepo := true, baseRepoFork := false,
    repoHtmlUrl := ("u"), prNumber := 4, pipelineId := ("p") }

def envC4 : Env :=
  { reviewAppsAt := fun _ => [], buildsAt := fun _ => [],
    archive := Except.ok ("tar"),
    createResult := Except.error { statusCode := some 409, message := ("Conflict") },
    deleteReviewAppResult := Except.ok (),
    appDetails := fun i => { id := i, web_url := ("w") } }

def inpC5 : Inputs :=
  { eventName := ("pull_request"), action := ("closed"), branch := ("b"),
    version := ("v"), repoId := 5, forkRepo := false, baseRepoFork := false,
    repoHtmlUrl := ("u"), prNumber := 5, pipelineId := ("p") }

def envC5 : Env :=
  { reviewAppsAt := fun _ => [], buildsAt := fun _ => [],
    archive := Except.ok ("tar"),
    createResult := Except.error { statusCode := some 409, message := ("Conflict") },
    deleteReviewAppResult := Except.ok (),
    appDetails := fun i => { id := i, web_url := ("w") } }

def appC6 : ReviewApp :=
  { id := ("ra-6"), pr_number := 6, status := ("created"), app := some { id := ("app-6") } }

def bC6 : Build := { source_blob := { url := ("u"), version := ("v2") }, status := ("succeeded") }

/-- Builds for two versions; the target version of the witness is v2. -/
def buildsC6 : List Build :=
  [bC6, { source_blob := { url := ("u"), version := ("v1") }, status := ("pending") }]

/-- A review app for PR 12 observed `deleting` at the initial locate. -/
def raC7a : ReviewApp :=
  { id := ("ra-7"), pr_number := 12, status := ("deleting"), app := some { id := ("app-7") } }

/-- The same review app observed past deletion trouble: a non-deleting
status at the next poll, letting the destroy-wait loop exit. -/
def raC7b : ReviewApp :=
  { id := ("ra-7"), pr_number := 12, status := ("errored"), app := some { id := ("app-7") } }

def envC7w : Env :=
  { reviewAppsAt := fun t => if t = 0 then [raC7a] else if t = 1 then [raC7b] else [],
    buildsAt := fun _ => [], archive := Except.ok ("tar"),
    createResult := Except.ok { id := ("ra-7n"), pr_number := 12, status := ("creating") },
    deleteReviewAppResult := Except.ok (),
    appDetails := fun i => { id := i, web_url := ("w") } }

def inpC7w : Inputs :=
  { eventName := ("pull_request"), action := ("synchronize"), branch := ("b"),
    version := ("v"), repoId := 12, forkRepo := false, baseRepoFork := false,
    repoHtmlUrl := ("u"), prNumber := 12, pipelineId := ("p") }

/-- A review app for PR 8: its own id is ra-8; the id of its underlying
application is app-8. -/
def raC8 : ReviewApp :=
  { id := ("ra-8"), pr_number := 8, status := ("created"), app := some { id := ("app-8") } }

def envC8 : Env :=
  { reviewAppsAt := fun t => if t ≤ 1 then [raC8] else [],
    buildsAt := fun _ => [], archive := Except.ok ("tar"),
    createResult := Except.ok { id := ("ra-8n"), pr_number := 8, status := ("creating") },
    deleteReviewAppResult := Except.ok (),
    appDetails := fun i => { id := i, web_url := ("w") } }

def inpC8 : Inputs :=
  { eventName := ("pull_request"), action := ("synchronize"), branch := ("b"),
    version := ("v"), repoId := 8, forkRepo := false, baseRepoFork := false,
    repoHtmlUrl := ("u"), prNumber := 8, pipelineId := ("p") }

/-- An event whose base repository is itself a fork while the PR head
repository is not (a PR from upstream into a fork). -/
def inpC9 : Inputs :=
  { eventName := ("pull_request"), action := ("opened"), branch := ("b"),
    version := ("v"), repoId := 9, forkRepo := false, baseRepoFork := true,
    repoHtmlUrl := ("u"), prNumber := 9, pipelineId := ("p") }

def envC9 : Env :=
  { reviewAppsAt := fun _ => [], buildsAt := fun _ => [],
    archive := Except.ok ("tar"),
    createResult := Except.ok { id := ("ra-9n"), pr_number := 9, status := ("creating") },
    deleteReviewAppResult := Except.ok (),
    appDetails := fun i => { id := i, web_url := ("w") } }

def inpC10 : Inputs :=
  { eventName := ("pull_request"), action := ("opened"), branch := ("b"),
    version := ("v"), repoId := 10, forkRepo := false, baseRepoFork := false,
    repoHtmlUrl := ("u"), prNumber := 10, pipelineId := ("p") }

def envC10 : Env :=
  { reviewAppsAt := fun _ => [], buildsAt := fun _ => [],
    archive := Except.ok ("tar"),
    createResult := Except.ok { id := ("ra-10"), pr_number := 10, status := ("creating") },
    deleteReviewAppResult := Except.ok (),
    appDetails := fun i => { id := i, web_url := ("w") } }

/-! Claim theorems. -/

/-- C2: the claim says that when the review app exposes a concrete
application reference but the build list has no build matching the target
version, the iteration resolves to not-finished.  The code instead falls
through the log-only `if (!build)` branch and reads `build.status` off
`undefined`: the check throws a TypeError (here with an empty build list and
with a list whose only build is for another version). -/
theorem c2_missing_build_faults :
    checkBuildStatusForReviewApp ("v1") (some appC2) [] =
      Except.error (JsError.typeError ("Cannot read properties of undefined (reading status)")) ∧
    checkBuildStatusForReviewApp ("v1") (some appC2) buildsC2 =
      Except.error (JsError.typeError ("Cannot read properties of undefined (reading status)")) :=
  ⟨rfl, rfl⟩

/-- C6: when the review app passes the status gates and exposes an
application reference, and the build lookup for the target version returns
`b`, the iteration resolves finished exactly when `b.status` is `succeeded`;
`pending` resolves not finished; any other status throws the build-failed
error carrying the platform-reported `error_status` or the placeholder. -/
theorem c6_build_status_resolution (version : String) (app : ReviewApp) (builds : List Build)
    (r : AppRef) (b : Build)
    (h1 : app.status ≠ ("pending")) (h2 : app.status ≠ ("creating"))
    (h3 : app.status ≠ ("deleting")) (h4 : app.app = some r)
    (h5 : builds.find? (fun x => version == x.source_blob.version) = some b) :
    checkBuildStatusForReviewApp version (some app) builds =
      (if b.status = ("succeeded") then Except.ok true
       else if b.status = ("pending") then Except.ok false
       else Except.error (JsError.jsError ((("Unexpected build status: \"") ++ app.status
         ++ ("\": ")) ++ jsOrStr app.error_status ("no error provided")))) ∧
    (checkBuildStatusForReviewApp version (some app) builds = Except.ok true ↔
      b.status = ("succeeded")) := by
  have key : checkBuildStatusForReviewApp version (some app) builds =
      (if b.status = ("succeeded") then Except.ok true
       else if b.status = ("pending") then Except.ok false
       else Except.error (JsError.jsError ((("Unexpected build status: \"") ++ app.status
         ++ ("\": ")) ++ jsOrStr app.error_status ("no error provided")))) := by
    simp only [checkBuildStatusForReviewApp, h4, h5]
    rw [if_neg (by simp [h1, h2]), if_neg (by simp [h3])]
    by_cases hs : b.status = ("succeeded")
    · simp [hs]
    · by_cases hp : b.status = ("pending")
      · simp [hp, hs]
      · simp [hp, hs]
  refine ⟨key, ?_⟩
  rw [key]
  by_cases hs : b.status = ("succeeded")
  · simp [hs]
  · by_cases hp : b.status = ("pending")
    · simp [hp, hs]
    · simp [hp, hs]

/-- C6 witness: a concrete app past the gates, a build list with a
succeeded build for the target version v2 and a pending build for v1,
resolved through the claim theorem. -/
theorem c6_build_status_resolution_witness :
    checkBuildStatusForReviewApp ("v2") (some appC6) buildsC6 = Except.ok true := by
  have h := c6_build_status_resolution ("v2") appC6 buildsC6 { id := ("app-6") } bC6
    (by decide) (by decide) (by decide) rfl rfl
  rw [h.1]
  rfl

/-- C3: when the archive fetch succeeded and the create request failed, the
failure is rethrown unchanged unless `statusCode` is 409; on 409 the locator
is re-run and a found app becomes the successful result, while a still-absent
app yields the fatal inconsistency error. -/
theorem c3_conflict_create (env : Env) (inp : Inputs) (t : Nat) (url : String) (err : HttpError)
    (ha : env.archive = Except.ok url) (hc : env.createResult = Except.error err) :
    (createReviewApp env inp t).2.2 =
      (if err.statusCode ≠ some 409 then Except.error (JsError.httpError err)
       else
         match findReviewApp inp.prNumber (env.reviewAppsAt t) with
         | some app => Except.ok app
         | none =>
           Except.error (JsError.jsError ("Previously got status 409 but no app found"))) := by
  simp only [createReviewApp, ha, hc, conflictRecover]
  by_cases h9 : err.statusCode = some 409
  · simp only [h9, ne_eq, not_true_eq_false, if_false, ite_false]
    cases hfind : findReviewApp inp.prNumber (env.reviewAppsAt t) <;> simp [hfind]
  · simp [h9]

/-- C3 witness: a 409 create failure with the re-run locator finding the
racing app resolves to that app. -/
theorem c3_conflict_create_witness :
    (createReviewApp envC3 inpC3 0).2.2 = Except.ok raC3 := by
  have h := c3_conflict_create envC3 inpC3 0 ("tar") errC3 rfl rfl
  rw [h]
  rfl

/-- C4: for a pull_request event whose head repository is a fork, the run
emits no remote call at all (in particular no create, delete or destroy) —
and that empty trace holds even without the event-name hypothesis — and the
run returns success. -/
theorem c4_fork_skip (inp : Inputs) (env : Env) (fuel : Nat) (hf : inp.forkRepo = true) :
    (run inp env fuel).2 = [] ∧
    (inp.eventName = ("pull_request") → run inp env fuel = (RunResult.success, [])) := by
  by_cases he : inp.eventName = ("pull_request")
  · refine ⟨?_, fun _ => ?_⟩ <;> simp [run, runBody, he, hf]
  · refine ⟨?_, fun h => absurd h he⟩
    simp [run, runBody, he]

/-- C4 witness: a concrete fork-head PR event runs to success with an empty
call trace. -/
theorem c4_fork_skip_witness : run inpC4 envC4 5 = (RunResult.success, []) :=
  (c4_fork_skip inpC4 envC4 5 rfl).2 rfl

/-- C5: a closed pull_request event (head not a fork) whose locator query
returns no review app ends with `setFailed` carrying the missing-app-on-close
message, the body returning normally (no thrown exception), and a trace
containing only the locate query — in particular no delete call. -/
theorem c5_close_without_app (inp : Inputs) (env : Env) (fuel : Nat)
    (h1 : inp.eventName = ("pull_request")) (h2 : inp.forkRepo = false)
    (h3 : inp.action = ("closed"))
    (h4 : findReviewApp inp.prNumber (env.reviewAppsAt 0) = none) :
    runBody inp env fuel =
      ([Call.findReviewApp],
        BodyOut.setFailed (("Action \"closed\", yet no existing review app for PR #")
          ++ toString inp.prNumber)) ∧
    run inp env fuel =
      (RunResult.failed (("Action \"closed\", yet no existing review app for PR #")
        ++ toString inp.prNumber), [Call.findReviewApp]) := by
  have hb : runBody inp env fuel =
      ([Call.findReviewApp],
        BodyOut.setFailed (("Action \"closed\", yet no existing review app for PR #")
          ++ toString inp.prNumber)) := by
    simp [runBody, h1, h2, h3, h4]
  exact ⟨hb, by simp [run, hb]⟩

/-- C5 witness: a concrete closed event with an empty pipeline list. -/
theorem c5_close_without_app_witness :
    run inpC5 envC5 5 =
      (RunResult.failed (("Action \"closed\", yet no existing review app for PR #")
        ++ toString inpC5.prNumber), [Call.findReviewApp]) :=
  (c5_close_without_app inpC5 envC5 5 rfl rfl rfl rfl).2

/-- C10: when the build-watch phase is reached (no pre-existing app, archive
and create both acknowledged) and the first watcher locate finds no review
app, the check faults reading `status` of `null`; the fault leaves the run
body as a thrown error (not a not-finished retry: the trace ends at that
locate, with no sleep) and the top-level handler turns it into a failed run. -/
theorem c10_watch_locator_absent (inp : Inputs) (env : Env) (fuel : Nat)
    (url : String) (app : ReviewApp)
    (h1 : inp.eventName = ("pull_request")) (h2 : inp.forkRepo = false)
    (h3 : inp.action ≠ ("closed"))
    (h4 : findReviewApp inp.prNumber (env.reviewAppsAt 0) = none)
    (h5 : env.archive = Except.ok url)
    (h6 : env.createResult = Except.ok app)
    (h7 : findReviewApp inp.prNumber (env.reviewAppsAt 1) = none) :
    runBody inp env fuel =
      ([Call.findReviewApp, Call.getArchive, Call.createApp (mkCreateBody inp url),
        Call.findReviewApp],
        BodyOut.threw (JsError.typeError ("Cannot read properties of null (reading status)"))) ∧
    (run inp env fuel).1 =
      RunResult.failed ("Cannot read properties of null (reading status)") := by
  have hcreate : createReviewApp env inp 1 =
      ([Call.getArchive, Call.createApp (mkCreateBody inp url)], 1, Except.ok app) := by
    simp [createReviewApp, h5, h6]
  have hwait : waitReviewAppUpdated env inp.prNumber inp.version fuel 1 0 =
      ([Call.findReviewApp],
        WaitOut.threw (JsError.typeError ("Cannot read properties of null (reading status)"))) := by
    simp [waitReviewAppUpdated, watchStep, h7, fetchesBuilds, checkBuildStatusForReviewApp]
  have hb : runBody inp env fuel =
      ([Call.findReviewApp, Call.getArchive, Call.createApp (mkCreateBody inp url),
        Call.findReviewApp],
        BodyOut.threw (JsError.typeError ("Cannot read properties of null (reading status)"))) := by
    simp [runBody, h1, h2, h3, h4, reconcileAfterDestroy, hcreate, hwait]
  exact ⟨hb, by simp [run, hb, JsError.message]⟩

/-- C10 witness: a concrete open event with an always-empty pipeline list:
the first locate of the watcher returns null and the run fails. -/
theorem c10_watch_locator_absent_witness :
    (run inpC10 envC10 5).1 =
      RunResult.failed ("Cannot read properties of null (reading status)") :=
  (c10_watch_locator_absent inpC10 envC10 5 ("tar")
    { id := ("ra-10"), pr_number := 10, status := ("creating") }
    rfl rfl (by decide) rfl rfl rfl rfl).2

/-- In the C1 world the app is gone from every poll after the first, so each
destroy-wait iteration keeps the stale `deleting` status and the loop never
exits, whatever the fuel. -/
lemma destroyWaitLoop_envC1_spins : ∀ fuel t,
    (destroyWaitLoop envC1 7 fuel (t + 1) ("deleting")).2.2 = none := by
  intro fuel
  induction fuel with
  | zero => intro t; rfl
  | succ n ih =>
    intro t
    have hfind : findReviewApp 7 (envC1.reviewAppsAt (t + 1)) = none := by
      simp [envC1, findReviewApp]
    simp only [destroyWaitLoop, hfind]
    simpa using ih (t + 1)

/-- C1: the claim says the destroy-wait loop also exits when the locator
finds no app at all (disappearance treated as destroyed).  In the code,
`destroyStatus` is only updated when an app is found, so once the app
disappears while the last observed status is still `deleting`, the loop
polls forever: for every fuel the loop is still spinning and the whole run
diverges instead of proceeding to the create. -/
theorem c1_destroy_wait_disappearance (fuel : Nat) :
    (destroyWaitLoop envC1 7 fuel 1 ("deleting")).2.2 = none ∧
    (run inpC1 envC1 fuel).1 = RunResult.diverged := by
  have h0 := destroyWaitLoop_envC1_spins fuel 0
  have h : (destroyWaitLoop envC1 7 fuel 1 ("deleting")).2.2 = none := by
    simpa using h0
  refine ⟨h, ?_⟩
  have hloc : findReviewApp inpC1.prNumber (envC1.reviewAppsAt 0) = some raC1 := rfl
  have hb : runBody inpC1 envC1 fuel =
      (Call.findReviewApp :: Call.destroyApp raC1.id ::
        (destroyWaitLoop envC1 inpC1.prNumber fuel 1 ("deleting")).1, BodyOut.diverged) := by
    simp only [runBody, hloc]
    rw [if_neg (by decide), if_neg (by decide), if_neg (by decide)]
    have h7 : inpC1.prNumber = 7 := rfl
    rw [h7] at *
    simp only [h]
  simp [run, hb]

/-- C8: in the reconcile path with an existing review app (record id ra-8,
underlying application id app-8), the destroy issued on the application-
destroy endpoint carries the own id ra-8 of the review-app record, not the
id app-8 of the underlying application — even though `raC8.app` names app-8. -/
theorem c8_destroy_uses_review_app_record_id :
    Call.destroyApp ("ra-8") ∈ (run inpC8 envC8 5).2 ∧
    Call.destroyApp ("app-8") ∉ (run inpC8 envC8 5).2 ∧
    raC8.app = some { id := ("app-8") } := by
  refine ⟨?_, ?_, rfl⟩ <;> decide

/-- The conflict-recovery path only re-runs the locator. -/
lemma conflictRecover_calls (env : Env) (pr t : Nat) (err : HttpError) :
    ∀ c ∈ (conflictRecover env pr t err).1, c = Call.findReviewApp := by
  intro c hc
  unfold conflictRecover at hc
  split at hc
  · simp at hc
  · split at hc <;> simpa using hc

/-- The destroy-wait loop only locates and sleeps. -/
lemma destroyWaitLoop_calls (env : Env) (pr : Nat) :
    ∀ fuel t ds c, c ∈ (destroyWaitLoop env pr fuel t ds).1 →
      c = Call.findReviewApp ∨ c = Call.sleep := by
  intro fuel
  induction fuel with
  | zero => intro t ds c hc; simp [destroyWaitLoop] at hc
  | succ n ih =>
    intro t ds c hc
    simp only [destroyWaitLoop] at hc
    split at hc
    · simp only [List.mem_cons] at hc
      rcases hc with h | h | h
      · exact Or.inl h
      · exact Or.inr h
      · exact ih (t + 1) _ c h
    · simpa using hc

/-- If the destroy-wait loop, entered with status `deleting`, exits, then the
exit status is not `deleting`, the locate counter strictly advanced, the loop
performed exactly `t2 - t` locates, and the last locate (index `t2 - 1`)
found the app with that non-`deleting` status. -/
lemma destroyWaitLoop_exit (env : Env) (pr : Nat) :
    ∀ fuel t tr t2 s, destroyWaitLoop env pr fuel t ("deleting") = (tr, t2, some s) →
      s ≠ ("deleting") ∧ t < t2 ∧ countFind tr = t2 - t ∧
      ∃ a, findReviewApp pr (env.reviewAppsAt (t2 - 1)) = some a ∧ a.status = s := by
  intro fuel
  induction fuel with
  | zero =>
    intro t tr t2 s h
    simp [destroyWaitLoop] at h
  | succ n ih =>
    intro t tr t2 s h
    rcases hfind : findReviewApp pr (env.reviewAppsAt t) with _ | a
    · simp only [destroyWaitLoop, hfind, beq_self_eq_true, if_true, Prod.mk.injEq] at h
      obtain ⟨h1, h2, h3⟩ := h
      have hrec : destroyWaitLoop env pr n (t + 1) ("deleting") =
          ((destroyWaitLoop env pr n (t + 1) ("deleting")).1,
            (destroyWaitLoop env pr n (t + 1) ("deleting")).2.1, some s) := by
        rw [← h3]
      obtain ⟨e1, e2, e3, a2, ha2, hs2⟩ := ih (t + 1) _ _ s hrec
      refine ⟨e1, by omega, ?_, ?_⟩
      · rw [← h1]
        simp [countFind, List.countP_cons] at e3 ⊢
        omega
      · rw [← h2]; exact ⟨a2, ha2, hs2⟩
    · by_cases hst : a.status = ("deleting")
      · simp only [destroyWaitLoop, hfind, hst, beq_self_eq_true, if_true, Prod.mk.injEq] at h
        obtain ⟨h1, h2, h3⟩ := h
        have hrec : destroyWaitLoop env pr n (t + 1) ("deleting") =
            ((destroyWaitLoop env pr n (t + 1) ("deleting")).1,
              (destroyWaitLoop env pr n (t + 1) ("deleting")).2.1, some s) := by
          rw [← h3]
        obtain ⟨e1, e2, e3, a2, ha2, hs2⟩ := ih (t + 1) _ _ s hrec
        refine ⟨e1, by omega, ?_, ?_⟩
        · rw [← h1]
          simp [countFind, List.countP_cons] at e3 ⊢
          omega
        · rw [← h2]; exact ⟨a2, ha2, hs2⟩
      · have hbeq : (a.status == ("deleting")) = false := by
          simp [hst]
        simp only [destroyWaitLoop, hfind, hbeq, Bool.false_eq_true, if_false,
          Prod.mk.injEq, Option.some.injEq] at h
        obtain ⟨h1, h2, h3⟩ := h
        subst h1 h2 h3
        refine ⟨hst, by omega, ?_, ?_⟩
        · simp [countFind]
        · refine ⟨a, ?_, rfl⟩
          simpa using hfind

/-- One watcher round only locates and possibly fetches builds. -/
lemma watchStep_calls (env : Env) (pr : Nat) (version : String) (t u : Nat) :
    ∀ c ∈ (watchStep env pr version t u).calls,
      c = Call.findReviewApp ∨ ∃ i, c = Call.getBuilds i := by
  intro c hc
  rcases hfb : fetchesBuilds (findReviewApp pr (env.reviewAppsAt t)) with _ | i
  · simp only [watchStep, hfb, List.mem_cons, List.not_mem_nil, or_false] at hc
    exact Or.inl hc
  · simp only [watchStep, hfb, List.mem_cons, List.not_mem_nil, or_false] at hc
    rcases hc with h | h
    · exact Or.inl h
    · exact Or.inr ⟨_, h⟩

/-- The watcher loop only locates, fetches builds and sleeps. -/
lemma buildWaitLoop_calls (env : Env) (pr : Nat) (version : String) :
    ∀ fuel t u c, c ∈ (buildWaitLoop env pr version fuel t u).1 →
      c = Call.findReviewApp ∨ (∃ i, c = Call.getBuilds i) ∨ c = Call.sleep := by
  intro fuel
  induction fuel with
  | zero => intro t u c hc; simp [buildWaitLoop] at hc
  | succ n ih =>
    intro t u c hc
    simp only [buildWaitLoop] at hc
    split at hc
    · rcases watchStep_calls env pr version t u c hc with h | h
      · exact Or.inl h
      · exact Or.inr (Or.inl h)
    · split at hc <;>
      · simp only [List.mem_append, List.mem_cons, List.not_mem_nil, or_false] at hc
        rcases hc with h | h
        · rcases watchStep_calls env pr version t u c h with h2 | h2
          · exact Or.inl h2
          · exact Or.inr (Or.inl h2)
        · exact Or.inr (Or.inr h)
    · simp only [List.append_assoc, List.mem_append, List.mem_cons, List.not_mem_nil,
        or_false] at hc
      rcases hc with h | h | h
      · rcases watchStep_calls env pr version t u c h with h2 | h2
        · exact Or.inl h2
        · exact Or.inr (Or.inl h2)
      · exact Or.inr (Or.inr h)
      · exact ih _ _ c h

/-- The whole wait phase only locates, fetches builds, sleeps, and finally
fetches the app details. -/
lemma waitReviewAppUpdated_calls (env : Env) (pr : Nat) (version : String)
    (fuel t u : Nat) :
    ∀ c ∈ (waitReviewAppUpdated env pr version fuel t u).1,
      c = Call.findReviewApp ∨ (∃ i, c = Call.getBuilds i) ∨ c = Call.sleep ∨
        ∃ i, c = Call.getAppDetails i := by
  intro c hc
  have hstep := watchStep_calls env pr version t u c
  rcases hres : (watchStep env pr version t u).res with e | b
  · simp only [waitReviewAppUpdated, hres] at hc
    rcases hstep hc with h | h
    · exact Or.inl h
    · exact Or.inr (Or.inl h)
  · rcases hbw : buildWaitLoop env pr version fuel
        (watchStep env pr version t u).t (watchStep env pr version t u).u with ⟨tr1, wo⟩
    have htr1 : ∀ c2 ∈ tr1,
        c2 = Call.findReviewApp ∨ (∃ i, c2 = Call.getBuilds i) ∨ c2 = Call.sleep := by
      intro c2 h2
      exact buildWaitLoop_calls env pr version fuel _ _ c2 (by rw [hbw]; exact h2)
    have hcomb : c ∈ (watchStep env pr version t u).calls ++ tr1 →
        c = Call.findReviewApp ∨ (∃ i, c = Call.getBuilds i) ∨ c = Call.sleep := by
      intro h
      rcases List.mem_append.mp h with h | h
      · rcases hstep h with h2 | h2
        · exact Or.inl h2
        · exact Or.inr (Or.inl h2)
      · rcases htr1 c h with h2 | h2 | h2
        · exact Or.inl h2
        · exact Or.inr (Or.inl h2)
        · exact Or.inr (Or.inr h2)
    cases wo with
    | diverged =>
      simp only [waitReviewAppUpdated, hres, hbw] at hc
      rcases hcomb hc with h | h | h
      · exact Or.inl h
      · exact Or.inr (Or.inl h)
      · exact Or.inr (Or.inr (Or.inl h))
    | threw e =>
      simp only [waitReviewAppUpdated, hres, hbw] at hc
      rcases hcomb hc with h | h | h
      · exact Or.inl h
      · exact Or.inr (Or.inl h)
      · exact Or.inr (Or.inr (Or.inl h))
    | finished app =>
      rcases happ : app.app with _ | r
      · simp only [waitReviewAppUpdated, hres, hbw, happ] at hc
        rcases hcomb hc with h | h | h
        · exact Or.inl h
        · exact Or.inr (Or.inl h)
        · exact Or.inr (Or.inr (Or.inl h))
      · simp only [waitReviewAppUpdated, hres, hbw, happ] at hc
        simp only [List.append_assoc, List.mem_append, List.mem_cons, List.not_mem_nil,
          or_false] at hc
        rcases hc with h | h | h
        · rcases hstep h with h2 | h2
          · exact Or.inl h2
          · exact Or.inr (Or.inl h2)
        · rcases htr1 c h with h2 | h2 | h2
          · exact Or.inl h2
          · exact Or.inr (Or.inl h2)
          · exact Or.inr (Or.inr (Or.inl h2))
        · exact Or.inr (Or.inr (Or.inr ⟨_, h⟩))

/-- Where a create call sits in the trace of the reconcile tail: the archive
fetch succeeded, the call carries exactly the assembled body, everything
before it is `pre` plus the archive fetch, and nothing after it is another
create call. -/
lemma reconcileAfterDestroy_create_mem (env : Env) (inp : Inputs) (fuel : Nat)
    (pre : List Call) (t : Nat) (b : CreateBody)
    (hpre : ∀ b2, Call.createApp b2 ∉ pre)
    (hb : Call.createApp b ∈ (reconcileAfterDestroy env inp fuel pre t).1) :
    ∃ url Q, env.archive = Except.ok url ∧ b = mkCreateBody inp url ∧
      (reconcileAfterDestroy env inp fuel pre t).1 =
        (pre ++ [Call.getArchive]) ++ Call.createApp b :: Q ∧
      ∀ b2, Call.createApp b2 ∉ Q := by
  rcases harch : env.archive with err | url
  · -- archive fetch failed inside the try: no create call is ever emitted
    exfalso
    have hcrec := conflictRecover_calls env inp.prNumber t err
    rcases hres : (conflictRecover env inp.prNumber t err).2.2 with e | app
    · simp only [reconcileAfterDestroy, createReviewApp, harch, hres] at hb
      rcases List.mem_append.mp hb with h | h
      · exact hpre b h
      · rcases List.mem_cons.mp h with h2 | h2
        · exact Call.noConfusion h2
        · exact Call.noConfusion (hcrec _ h2)
    · rcases hw : waitReviewAppUpdated env inp.prNumber inp.version fuel
          (conflictRecover env inp.prNumber t err).2.1 0 with ⟨wtr, wo⟩
      have hwtr : ∀ c2 ∈ wtr, ∀ b2, c2 ≠ Call.createApp b2 := by
        intro c2 h2 b2
        rcases waitReviewAppUpdated_calls env inp.prNumber inp.version fuel
            (conflictRecover env inp.prNumber t err).2.1 0 c2 (by rw [hw]; exact h2) with
          h3 | ⟨i, h3⟩ | h3 | ⟨i, h3⟩ <;> simp [h3]
      have hmem : Call.createApp b ∈
          (pre ++ Call.getArchive :: (conflictRecover env inp.prNumber t err).1) ++ wtr := by
        cases wo with
        | diverged =>
          simpa only [reconcileAfterDestroy, createReviewApp, harch, hres, hw] using hb
        | threw e2 =>
          simpa only [reconcileAfterDestroy, createReviewApp, harch, hres, hw] using hb
        | done dd =>
          simpa only [reconcileAfterDestroy, createReviewApp, harch, hres, hw] using hb
      rcases List.mem_append.mp hmem with h | h
      · rcases List.mem_append.mp h with h2 | h2
        · exact hpre b h2
        · rcases List.mem_cons.mp h2 with h3 | h3
          · exact Call.noConfusion h3
          · exact Call.noConfusion (hcrec _ h3)
      · exact (hwtr _ h b) rfl
  · rcases hcr : env.createResult with err | app
    · -- create request failed: conflict recovery follows the create call
      have hcrec := conflictRecover_calls env inp.prNumber t err
      rcases hres : (conflictRecover env inp.prNumber t err).2.2 with e | app2
      · -- recovery also failed: the body throws right after
        simp only [reconcileAfterDestroy, createReviewApp, harch, hcr, hres] at hb ⊢
        have hbb : b = mkCreateBody inp url := by
          rcases List.mem_append.mp hb with h | h
          · exact absurd h (hpre b)
          · rcases List.mem_cons.mp h with h2 | h2
            · exact Call.noConfusion h2
            · rcases List.mem_cons.mp h2 with h3 | h3
              · exact Call.createApp.inj h3
              · exact absurd (hcrec _ h3) (by simp)
        refine ⟨url, (conflictRecover env inp.prNumber t err).1, rfl, hbb, ?_, ?_⟩
        · rw [hbb]; simp
        · intro b2 hq
          exact absurd (hcrec _ hq) (by simp)
      · -- recovery found the racing app: the watcher follows
        rcases hw : waitReviewAppUpdated env inp.prNumber inp.version fuel
            (conflictRecover env inp.prNumber t err).2.1 0 with ⟨wtr, wo⟩
        have hwtr : ∀ c2 ∈ wtr, ∀ b2, c2 ≠ Call.createApp b2 := by
          intro c2 h2 b2
          rcases waitReviewAppUpdated_calls env inp.prNumber inp.version fuel
              (conflictRecover env inp.prNumber t err).2.1 0 c2 (by rw [hw]; exact h2) with
            h3 | ⟨i, h3⟩ | h3 | ⟨i, h3⟩ <;> simp [h3]
        have hred : (reconcileAfterDestroy env inp fuel pre t).1 =
            (pre ++ Call.getArchive :: Call.createApp (mkCreateBody inp url) ::
              (conflictRecover env inp.prNumber t err).1) ++ wtr := by
          cases wo with
          | diverged => simp only [reconcileAfterDestroy, createReviewApp, harch, hcr, hres, hw]
          | threw e2 => simp only [reconcileAfterDestroy, createReviewApp, harch, hcr, hres, hw]
          | done dd => simp only [reconcileAfterDestroy, createReviewApp, harch, hcr, hres, hw]
        rw [hred] at hb
        have hbb : b = mkCreateBody inp url := by
          rcases List.mem_append.mp hb with h | h
          · rcases List.mem_append.mp h with h2 | h2
            · exact absurd h2 (hpre b)
            · rcases List.mem_cons.mp h2 with h3 | h3
              · exact Call.noConfusion h3
              · rcases List.mem_cons.mp h3 with h4 | h4
                · exact Call.createApp.inj h4
                · exact absurd (hcrec _ h4) (by simp)
          · exact absurd rfl (hwtr _ h b)
        refine ⟨url, (conflictRecover env inp.prNumber t err).1 ++ wtr, rfl, hbb, ?_, ?_⟩
        · rw [hred, hbb]; simp
        · intro b2 hq
          rcases List.mem_append.mp hq with h | h
          · exact absurd (hcrec _ h) (by simp)
          · exact absurd rfl (hwtr _ h b2)
    · -- create request acknowledged: the watcher follows directly
      rcases hw : waitReviewAppUpdated env inp.prNumber inp.version fuel t 0 with ⟨wtr, wo⟩
      have hwtr : ∀ c2 ∈ wtr, ∀ b2, c2 ≠ Call.createApp b2 := by
        intro c2 h2 b2
        rcases waitReviewAppUpdated_calls env inp.prNumber inp.version fuel t 0 c2
            (by rw [hw]; exact h2) with h3 | ⟨i, h3⟩ | h3 | ⟨i, h3⟩ <;> simp [h3]
      have hred : (reconcileAfterDestroy env inp fuel pre t).1 =
          (pre ++ [Call.getArchive, Call.createApp (mkCreateBody inp url)]) ++ wtr := by
        cases wo with
        | diverged => simp only [reconcileAfterDestroy, createReviewApp, harch, hcr, hw]
        | threw e2 => simp only [reconcileAfterDestroy, createReviewApp, harch, hcr, hw]
        | done dd => simp only [reconcileAfterDestroy, createReviewApp, harch, hcr, hw]
      rw [hred] at hb
      have hbb : b = mkCreateBody inp url := by
        rcases List.mem_append.mp hb with h | h
        · rcases List.mem_append.mp h with h2 | h2
          · exact absurd h2 (hpre b)
          · rcases List.mem_cons.mp h2 with h3 | h3
            · exact Call.noConfusion h3
            · rcases List.mem_cons.mp h3 with h4 | h4
              · exact Call.createApp.inj h4
              · exact absurd h4 (List.not_mem_nil _)
        · exact absurd rfl (hwtr _ h b)
      refine ⟨url, wtr, rfl, hbb, ?_, ?_⟩
      · rw [hred, hbb]; simp
      · intro b2 hq
        exact absurd rfl (hwtr _ hq b2)

/-- A create call in the trace of a run pins down the whole shape of the run:
the event was a non-fork pull_request reconcile, the body is the assembled
one, everything before the create is the locate/destroy-wait prefix plus the
archive fetch (no build fetch, no app-details fetch, no other create), and if
an app was initially found then some earlier locate — counted inside that
prefix — observed it with a non-`deleting` status. -/
lemma runBody_create_decomp (inp : Inputs) (env : Env) (fuel : Nat) (b : CreateBody)
    (hb : Call.createApp b ∈ (runBody inp env fuel).1) :
    inp.forkRepo = false ∧
    ∃ url P Q, env.archive = Except.ok url ∧ b = mkCreateBody inp url ∧
      (runBody inp env fuel).1 = P ++ Call.createApp b :: Q ∧
      (∀ i, Call.getBuilds i ∉ P) ∧ (∀ i, Call.getAppDetails i ∉ P) ∧
      (∀ b2, Call.createApp b2 ∉ Q) ∧
      (∀ a, findReviewApp inp.prNumber (env.reviewAppsAt 0) = some a →
        ∃ k a2, k + 1 ≤ countFind P ∧
          findReviewApp inp.prNumber (env.reviewAppsAt k) = some a2 ∧
          a2.status ≠ ("deleting")) := by
  by_cases he : inp.eventName = ("pull_request")
  case neg =>
    exfalso
    simp [runBody, he] at hb
  case pos =>
  by_cases hf : inp.forkRepo = true
  case pos =>
    exfalso
    simp [runBody, he, hf] at hb
  case neg =>
  have hf' : inp.forkRepo = false := by simpa using hf
  by_cases hcl : inp.action = ("closed")
  case pos =>
    exfalso
    rcases hloc : findReviewApp inp.prNumber (env.reviewAppsAt 0) with _ | a
    · simp [runBody, he, hf', hcl, hloc] at hb
    · rcases hdel : env.deleteReviewAppResult with e | u <;>
        simp [runBody, he, hf', hcl, hloc, hdel] at hb
  case neg =>
  rcases hloc : findReviewApp inp.prNumber (env.reviewAppsAt 0) with _ | a
  · -- no pre-existing app: the prefix is the single locate
    have hreq : runBody inp env fuel =
        reconcileAfterDestroy env inp fuel ([Call.findReviewApp]) 1 := by
      simp [runBody, he, hf', hcl, hloc]
    rw [hreq] at hb ⊢
    obtain ⟨url, Q, harch, hbb, heq, hQ⟩ :=
      reconcileAfterDestroy_create_mem env inp fuel ([Call.findReviewApp]) 1 b
        (by intro b2 h; simp at h) hb
    refine ⟨hf', url, [Call.findReviewApp] ++ [Call.getArchive], Q, harch, hbb, heq,
      ?_, ?_, hQ, ?_⟩
    · intro i h; simp at h
    · intro i h; simp at h
    · intro a0 ha0
      exact absurd ha0 (by simp)
  · -- an app was found: destroy then destroy-wait precede the create
    rcases hd : (destroyWaitLoop env inp.prNumber fuel 1 ("deleting")).2.2 with _ | s
    · exfalso
      have hreq : runBody inp env fuel =
          (Call.findReviewApp :: Call.destroyApp a.id ::
            (destroyWaitLoop env inp.prNumber fuel 1 ("deleting")).1, BodyOut.diverged) := by
        simp [runBody, he, hf', hcl, hloc, hd]
      rw [hreq] at hb
      rcases List.mem_cons.mp hb with h | h
      · exact Call.noConfusion h
      · rcases List.mem_cons.mp h with h2 | h2
        · exact Call.noConfusion h2
        · rcases destroyWaitLoop_calls env inp.prNumber fuel 1 _ _ h2 with h3 | h3 <;>
            exact Call.noConfusion h3
    · have hreq : runBody inp env fuel =
          reconcileAfterDestroy env inp fuel
            (Call.findReviewApp :: Call.destroyApp a.id ::
              (destroyWaitLoop env inp.prNumber fuel 1 ("deleting")).1)
            (destroyWaitLoop env inp.prNumber fuel 1 ("deleting")).2.1 := by
        simp [runBody, he, hf', hcl, hloc, hd]
      have hpre : ∀ b2, Call.createApp b2 ∉
          (Call.findReviewApp :: Call.destroyApp a.id ::
            (destroyWaitLoop env inp.prNumber fuel 1 ("deleting")).1) := by
        intro b2 h
        rcases List.mem_cons.mp h with h1 | h1
        · exact Call.noConfusion h1
        · rcases List.mem_cons.mp h1 with h2 | h2
          · exact Call.noConfusion h2
          · rcases destroyWaitLoop_calls env inp.prNumber fuel 1 _ _ h2 with h3 | h3 <;>
              exact Call.noConfusion h3
      rw [hreq] at hb ⊢
      obtain ⟨url, Q, harch, hbb, heq, hQ⟩ :=
        reconcileAfterDestroy_create_mem env inp fuel _ _ b hpre hb
      have hdw : destroyWaitLoop env inp.prNumber fuel 1 ("deleting") =
          ((destroyWaitLoop env inp.prNumber fuel 1 ("deleting")).1,
            (destroyWaitLoop env inp.prNumber fuel 1 ("deleting")).2.1, some s) := by
        rw [← hd]
      obtain ⟨hs_ne, hlt, hcount, a2, ha2, hst2⟩ :=
        destroyWaitLoop_exit env inp.prNumber fuel 1 _ _ s hdw
      refine ⟨hf', url,
        (Call.findReviewApp :: Call.destroyApp a.id ::
          (destroyWaitLoop env inp.prNumber fuel 1 ("deleting")).1) ++ [Call.getArchive],
        Q, harch, hbb, heq, ?_, ?_, hQ, ?_⟩
      · intro i h
        rcases List.mem_append.mp h with h1 | h1
        · rcases List.mem_cons.mp h1 with h2 | h2
          · exact Call.noConfusion h2
          · rcases List.mem_cons.mp h2 with h3 | h3
            · exact Call.noConfusion h3
            · rcases destroyWaitLoop_calls env inp.prNumber fuel 1 _ _ h3 with h4 | h4 <;>
                exact Call.noConfusion h4
        · simp at h1
      · intro i h
        rcases List.mem_append.mp h with h1 | h1
        · rcases List.mem_cons.mp h1 with h2 | h2
          · exact Call.noConfusion h2
          · rcases List.mem_cons.mp h2 with h3 | h3
            · exact Call.noConfusion h3
            · rcases destroyWaitLoop_calls env inp.prNumber fuel 1 _ _ h3 with h4 | h4 <;>
                exact Call.noConfusion h4
        · simp at h1
      · intro a0 ha0
        refine ⟨(destroyWaitLoop env inp.prNumber fuel 1 ("deleting")).2.1 - 1, a2, ?_, ha2,
          by rw [hst2]; exact hs_ne⟩
        have hcf : countFind
            ((Call.findReviewApp :: Call.destroyApp a.id ::
              (destroyWaitLoop env inp.prNumber fuel 1 ("deleting")).1) ++ [Call.getArchive]) =
            countFind (destroyWaitLoop env inp.prNumber fuel 1 ("deleting")).1 + 1 := by
          simp [countFind, List.countP_append, List.countP_cons]
        rw [hcf, hcount]

/-- C7: strict sequencing of a reconcile run.  Around any create call the
trace splits into a prefix and a tail such that the prefix contains no
build-watcher call (no build fetch, no app-details fetch) — the watcher only
starts after the create is acknowledged — the tail repeats no create, and if
a review app had been found by the initial locate then some locate counted
inside that prefix observed the app with a status other than `deleting`: the
destroy-wait completed before the create was issued. -/
theorem c7_strict_sequencing (inp : Inputs) (env : Env) (fuel : Nat) (b : CreateBody)
    (hb : Call.createApp b ∈ (runBody inp env fuel).1) :
    ∃ P Q, (runBody inp env fuel).1 = P ++ Call.createApp b :: Q ∧
      (∀ i, Call.getBuilds i ∉ P) ∧ (∀ i, Call.getAppDetails i ∉ P) ∧
      (∀ b2, Call.createApp b2 ∉ Q) ∧
      (∀ a, findReviewApp inp.prNumber (env.reviewAppsAt 0) = some a →
        ∃ k a2, k + 1 ≤ countFind P ∧
          findReviewApp inp.prNumber (env.reviewAppsAt k) = some a2 ∧
          a2.status ≠ ("deleting")) := by
  obtain ⟨-, url, P, Q, -, -, heq, hP1, hP2, hQ, ha⟩ := runBody_create_decomp inp env fuel b hb
  exact ⟨P, Q, heq, hP1, hP2, hQ, ha⟩

/-- C7 witness: a reconcile run over a found app (observed `deleting`, then
`errored`, then gone) that reaches the create and the watcher. -/
theorem c7_strict_sequencing_witness :
    ∃ P Q, (runBody inpC7w envC7w 5).1 =
        P ++ Call.createApp (mkCreateBody inpC7w ("tar")) :: Q ∧
      (∀ i, Call.getBuilds i ∉ P) ∧ (∀ i, Call.getAppDetails i ∉ P) ∧
      (∀ b2, Call.createApp b2 ∉ Q) ∧
      (∀ a, findReviewApp inpC7w.prNumber (envC7w.reviewAppsAt 0) = some a →
        ∃ k a2, k + 1 ≤ countFind P ∧
          findReviewApp inpC7w.prNumber (envC7w.reviewAppsAt k) = some a2 ∧
          a2.status ≠ ("deleting")) :=
  c7_strict_sequencing inpC7w envC7w 5 (mkCreateBody inpC7w ("tar")) (by decide)

/-- C9 (amended): every create request a run actually issues carries
`fork_repo_id` computed from the head-repository fork flag — and since that
same flag makes the run return before reconciling, the field is absent in
every issued create request. -/
theorem c9_fork_repo_id_absent (inp : Inputs) (env : Env) (fuel : Nat) (b : CreateBody)
    (hb : Call.createApp b ∈ (run inp env fuel).2) :
    b.fork_repo_id = none ∧ b.fork_repo_id = forkRepoIdOf inp := by
  have hb2 : Call.createApp b ∈ (runBody inp env fuel).1 := hb
  obtain ⟨hf, url, P, Q, -, hbb, -⟩ := runBody_create_decomp inp env fuel b hb2
  subst hbb
  constructor
  · simp [mkCreateBody, forkRepoIdOf, hf]
  · simp [mkCreateBody]

/-- C9 witness: the create issued by a concrete non-fork open event carries
no `fork_repo_id`. -/
theorem c9_fork_repo_id_absent_witness :
    (mkCreateBody inpC10 ("tar")).fork_repo_id = none ∧
    (mkCreateBody inpC10 ("tar")).fork_repo_id = forkRepoIdOf inpC10 :=
  c9_fork_repo_id_absent inpC10 envC10 5 (mkCreateBody inpC10 ("tar")) (by decide)

/-- C9 counterexample: an event whose base repository is itself a fork while
the head repository is not.  The claim requires the issued create to carry
`fork_repo_id = repoId`; the code, which never reads the fork flag of the
base repository, issues it with `fork_repo_id` absent. -/
theorem c9_base_repo_fork_counterexample :
    inpC9.baseRepoFork = true ∧
    Call.createApp (mkCreateBody inpC9 ("tar")) ∈ (run inpC9 envC9 5).2 ∧
    (mkCreateBody inpC9 ("tar")).fork_repo_id = none ∧
    ¬(mkCreateBody inpC9 ("tar")).fork_repo_id = some inpC9.repoId := by
  refine ⟨rfl, ?_, rfl, ?_⟩ <;> decide
